import Mathlib

/-!
Verification of the `tts-frontend-proto` demonstration script (`main.py`).

The script builds one protocol-buffer `Token` message, sets four scalar
fields, serializes it to JSON with `google.protobuf.json_format.MessageToJson`,
and prints the result.  `main.py` is embedded directly; the generated message
class `processed_pb2.Token` and the library formatter are not part of the
source tree, so they are modelled from the specification (a record with a
unicode text field and three integer fields; a formatter producing a
single-line JSON object with lowerCamelCase keys, strings quoted and escaped,
integers unquoted).

To state round-trip properties we also define a small JSON reader for flat
objects of string and integer values, and prove that it inverts the
formatter on every `Token`.
-/

namespace TtsFrontendProto

/-- Modelled from the spec: the generated message class `processed_pb2.Token`
is not in the source tree.  The spec's data model gives one entity `Token`
with a unicode-capable text field `name` and integer fields `index`,
`span_from`, `span_to`; proto3 scalar fields start at their default values
(empty string, zero). -/
structure Token where
  name : String := ""
  index : Int := 0
  span_from : Int := 0
  span_to : Int := 0
  deriving DecidableEq, Repr

/-- `token.name = v` (attribute assignment in `main.py`, line 6). -/
def Token.setName (t : Token) (v : String) : Token := { t with name := v }

/-- `token.index = v` (attribute assignment in `main.py`, line 7). -/
def Token.setIndex (t : Token) (v : Int) : Token := { t with index := v }

/-- `token.span_from = v` (attribute assignment in `main.py`, line 8). -/
def Token.setSpanFrom (t : Token) (v : Int) : Token := { t with span_from := v }

/-- `token.span_to = v` (attribute assignment in `main.py`, line 9). -/
def Token.setSpanTo (t : Token) (v : Int) : Token := { t with span_to := v }

/-- A JSON value as produced for a `Token`: every field is either a text
string or an integer. -/
inductive JValue where
  | str (s : String)
  | int (n : Int)
  deriving DecidableEq, Repr

/-- The opening brace character. -/
def lbrace : Char := Char.ofNat 123

/-- The closing brace character. -/
def rbrace : Char := Char.ofNat 125

/-- Hexadecimal digit character for a value below 16 (lowercase). -/
def hexDigit (n : Nat) : Char :=
  if n < 10 then Char.ofNat (48 + n) else Char.ofNat (87 + n)

/-- JSON escaping of a single character, following the standard JSON string
encoding the spec requires: quote and backslash are escaped, common control
characters use their short escapes, other control characters use a
`\u00XX` escape, and every remaining character (including non-ASCII text
such as ð) is emitted verbatim. -/
def escapeCharL (c : Char) : List Char :=
  if c = '"' then ['\\', '"']
  else if c = '\\' then ['\\', '\\']
  else if c = '\n' then ['\\', 'n']
  else if c = '\r' then ['\\', 'r']
  else if c = '\t' then ['\\', 't']
  else if c.toNat < 32 then
    ['\\', 'u', '0', '0', hexDigit (c.toNat / 16), hexDigit (c.toNat % 16)]
  else [c]

/-- A JSON string literal: the escaped characters between double quotes. -/
def strLit (cs : List Char) : List Char :=
  '"' :: cs.flatMap escapeCharL ++ ['"']

/-- Decimal digits, most significant first; `fuel` bounds the recursion
depth and is always sufficient when it exceeds the number. -/
def natDigitsAux (fuel : Nat) (n : Nat) : List Char :=
  match fuel with
  | 0 => []
  | fuel + 1 =>
    if n < 10 then [Char.ofNat (48 + n)]
    else natDigitsAux fuel (n / 10) ++ [Char.ofNat (48 + n % 10)]

/-- Decimal digits of a natural number, most significant first. -/
def natDigits (n : Nat) : List Char := natDigitsAux (n + 1) n

/-- Decimal rendering of an integer, with a leading minus sign when
negative. -/
def intChars (n : Int) : List Char :=
  if n < 0 then '-' :: natDigits n.natAbs else natDigits n.toNat

/-- Characters of a rendered JSON value: strings quoted and escaped,
integers unquoted. -/
def JValue.render : JValue → List Char
  | .str s => strLit s.toList
  | .int n => intChars n

/-- One `"key":value` member of a JSON object. -/
def entryChars (e : String × JValue) : List Char :=
  strLit e.1.toList ++ ':' :: e.2.render

/-- Interpose commas between the members of a JSON object. -/
def joinComma : List (List Char) → List Char
  | [] => []
  | [x] => x
  | x :: y :: xs => x ++ ',' :: joinComma (y :: xs)

/-- Characters of a JSON object with the given members, in order. -/
def objChars (es : List (String × JValue)) : List Char :=
  lbrace :: joinComma (es.map entryChars) ++ [rbrace]

/-- Modelled from the spec: the formatter's field-name convention converts
the proto snake_case field name to lowerCamelCase (the spec's example output
uses keys `spanFrom` and `spanTo`). -/
def camelChars : List Char → List Char
  | [] => []
  | '_' :: c :: rest => c.toUpper :: camelChars rest
  | '_' :: [] => []
  | c :: rest => c :: camelChars rest

/-- The JSON key used for a proto field name. -/
def jsonName (s : String) : String := String.mk (camelChars s.toList)

/-- The members of the JSON object produced for a `Token`: one entry per
field, in field order, keyed by the field's JSON (lowerCamelCase) name. -/
def tokenEntries (t : Token) : List (String × JValue) :=
  [(jsonName "name", .str t.name),
   (jsonName "index", .int t.index),
   (jsonName "span_from", .int t.span_from),
   (jsonName "span_to", .int t.span_to)]

/-- Modelled from the spec: `google.protobuf.json_format.MessageToJson` is
third-party library code not in the source tree.  Per the spec it maps a
populated `Token` to a single-line JSON object whose members are the
message's fields, with standard JSON encoding and the formatter's
lowerCamelCase key convention. -/
def MessageToJson (t : Token) : String := String.mk (objChars (tokenEntries t))

/-- An observable I/O action of the program.  The only I/O in `main.py` is
`print`, which writes its argument followed by a newline to stdout. -/
inductive Event where
  | printLine (s : String)
  deriving DecidableEq, Repr

/-- The token built by `main` (`main.py`, lines 5-9): a fresh `Token` whose
four fields are then assigned the literals 'orð', 1, 1, 4. -/
def mainToken : Token :=
  (((({} : Token).setName "orð").setIndex 1).setSpanFrom 1).setSpanTo 4

/-- The I/O trace of `main` (`main.py`, lines 10-11): one `print` of the
JSON representation, and nothing else. -/
def mainEvents : List Event :=
  [.printLine (MessageToJson mainToken)]

/-- The text an event trace writes to standard output (`print` appends a
newline). -/
def stdoutOf (events : List Event) : String :=
  String.join (events.map fun e => match e with | .printLine s => s ++ "\n")

/-- A whole run of the script: `main.py` reads no arguments, performs
`main`'s I/O and finishes normally, so the exit status is 0. -/
def run (_args : List String) : String × Nat :=
  (stdoutOf mainEvents, 0)

/-- Top-level effect of loading `main.py` as a module named `moduleName`
(`main.py`, lines 14-15): the guard runs `main()` only when the module name
is the string `__main__`; a plain import produces no events. -/
def moduleTopLevel (moduleName : String) : List Event :=
  if moduleName = "__main__" then mainEvents else []

/-- A runtime value assigned to a message field: a Python `str` or `int`. -/
inductive PyValue where
  | pstr (s : String)
  | pint (n : Int)
  deriving DecidableEq, Repr

/-- The four field names of `Token`. -/
inductive FieldName where
  | name
  | index
  | span_from
  | span_to
  deriving DecidableEq, Repr

/-- Fallible view of a field assignment: assigning a value of the wrong
type to a proto field is an error; a well-typed assignment stores the value.
No other check (in particular no ordering check between `span_from` and
`span_to`) exists. -/
def Token.setField (t : Token) (f : FieldName) (v : PyValue) :
    Except String Token :=
  match f, v with
  | .name, .pstr s => .ok { t with name := s }
  | .index, .pint n => .ok { t with index := n }
  | .span_from, .pint n => .ok { t with span_from := n }
  | .span_to, .pint n => .ok { t with span_to := n }
  | _, _ => .error "TypeError"

/-- `main` with every step routed through the fallible model: construction,
the four assignments, serialization and the print.  An error at any step
would propagate. -/
def mainChecked : Except String (List Event) := do
  let t0 : Token := {}
  let t1 ← t0.setField .name (.pstr "orð")
  let t2 ← t1.setField .index (.pint 1)
  let t3 ← t2.setField .span_from (.pint 1)
  let t4 ← t3.setField .span_to (.pint 4)
  pure [.printLine (MessageToJson t4)]

/-- Numeric value of a hexadecimal digit character. -/
def hexVal (c : Char) : Option Nat :=
  if c.isDigit then some (c.toNat - 48)
  else if 'a' ≤ c ∧ c ≤ 'f' then some (c.toNat - 87)
  else if 'A' ≤ c ∧ c ≤ 'F' then some (c.toNat - 55)
  else none

/-- Reading of a single-character JSON escape (the character after the
backslash). -/
def unescape (e : Char) : Option Char :=
  if e = '"' then some '"'
  else if e = '\\' then some '\\'
  else if e = '/' then some '/'
  else if e = 'n' then some '\n'
  else if e = 'r' then some '\r'
  else if e = 't' then some '\t'
  else if e = 'b' then some (Char.ofNat 8)
  else if e = 'f' then some (Char.ofNat 12)
  else none

/-- Reads the body of a JSON string literal (the opening quote already
consumed) up to its closing quote, decoding escapes; returns the decoded
characters and the rest of the input. -/
def readStr : List Char → Option (List Char × List Char)
  | [] => none
  | c :: rest =>
    if c = '"' then some ([], rest)
    else if c = '\\' then
      match rest with
      | [] => none
      | e :: rest2 =>
        if e = 'u' then
          match rest2 with
          | h1 :: h2 :: h3 :: h4 :: rest3 => do
            let a ← hexVal h1
            let b ← hexVal h2
            let c3 ← hexVal h3
            let d ← hexVal h4
            let (cs, r) ← readStr rest3
            pure (Char.ofNat (((a * 16 + b) * 16 + c3) * 16 + d) :: cs, r)
          | _ => none
        else do
          let d ← unescape e
          let (cs, r) ← readStr rest2
          pure (d :: cs, r)
    else do
      let (cs, r) ← readStr rest
      pure (c :: cs, r)

/-- Reads a run of decimal digits, folding them into `acc`; stops at the
first non-digit. -/
def readNatAux : List Char → Nat → Nat × List Char
  | [], acc => (acc, [])
  | c :: rest, acc =>
    if c.isDigit then readNatAux rest (acc * 10 + (c.toNat - 48))
    else (acc, c :: rest)

/-- Reads a JSON value: a string literal or an (optionally negative)
integer. -/
def readValue : List Char → Option (JValue × List Char)
  | [] => none
  | c :: rest =>
    if c = '"' then
      (readStr rest).map fun p => (.str (String.mk p.1), p.2)
    else if c = '-' then
      match rest with
      | d :: _ =>
        if d.isDigit then
          let (n, r) := readNatAux rest 0
          some (.int (-(n : Int)), r)
        else none
      | [] => none
    else if c.isDigit then
      let (n, r) := readNatAux (c :: rest) 0
      some (.int (n : Int), r)
    else none

/-- Reads a `"key":value` member followed by either a comma and further
members or the closing brace.  `fuel` bounds the number of members. -/
def readMembers : Nat → List Char → Option (List (String × JValue) × List Char)
  | 0, _ => none
  | fuel + 1, l =>
    match l with
    | c :: rest =>
      if c = '"' then do
        let (key, r1) ← readStr rest
        match r1 with
        | c2 :: r2 =>
          if c2 = ':' then do
            let (v, r3) ← readValue r2
            match r3 with
            | c3 :: r4 =>
              if c3 = ',' then do
                let (es, r5) ← readMembers fuel r4
                pure ((String.mk key, v) :: es, r5)
              else if c3 = rbrace then pure ([(String.mk key, v)], r4)
              else none
            | [] => none
          else none
        | [] => none
      else none
    | [] => none

/-- Parses a complete flat JSON object (string and integer values only):
the whole input must be consumed. -/
def parseObj (s : String) : Option (List (String × JValue)) :=
  match s.toList with
  | c :: rest =>
    if c = lbrace then
      match readMembers (s.length + 4) rest with
      | some (es, []) => some es
      | _ => none
    else none
  | [] => none

/-- The value under key `k` in a list of JSON object members. -/
def lookupKey (k : String) (es : List (String × JValue)) : Option JValue :=
  (es.find? fun e => e.1 = k).map Prod.snd

/-- A list whose head, if any, is not a decimal digit. -/
def headNotDigit : List Char → Prop
  | [] => True
  | c :: _ => c.isDigit = false

/-! ### Correctness of the reader against the formatter -/

theorem hexVal_hexDigit : ∀ m < 16, hexVal (hexDigit m) = some m := by decide

theorem digitChar_facts : ∀ d < 10,
    (Char.ofNat (48 + d)).isDigit = true ∧ (Char.ofNat (48 + d)).toNat = 48 + d ∧
    Char.ofNat (48 + d) ≠ '"' ∧ Char.ofNat (48 + d) ≠ '-' := by decide

/-- Reading an escaped string body returns the original characters and the
input following the closing quote. -/
theorem readStr_escape (cs : List Char) : ∀ rest : List Char,
    readStr (cs.flatMap escapeCharL ++ '"' :: rest) = some (cs, rest) := by
  induction cs with
  | nil => intro rest; rw [readStr.eq_def]; simp
  | cons c cs ih =>
    intro rest
    simp only [List.flatMap_cons, List.append_assoc]
    by_cases h1 : c = '"'
    · subst h1; rw [escapeCharL]; simp only [if_pos rfl, List.cons_append,
        List.nil_append]
      rw [readStr.eq_def]; simp [unescape, ih]
    by_cases h2 : c = '\\'
    · subst h2; rw [escapeCharL]; simp only [if_neg h1, if_pos rfl,
        List.cons_append, List.nil_append]
      rw [readStr.eq_def]; simp [unescape, ih]
    by_cases h3 : c = '\n'
    · subst h3; rw [escapeCharL]; simp only [if_neg h1, if_neg h2, if_pos rfl,
        List.cons_append, List.nil_append]
      rw [readStr.eq_def]; simp [unescape, ih]
    by_cases h4 : c = '\r'
    · subst h4; rw [escapeCharL]; simp only [if_neg h1, if_neg h2, if_neg h3,
        if_pos rfl, List.cons_append, List.nil_append]
      rw [readStr.eq_def]; simp [unescape, ih]
    by_cases h5 : c = '\t'
    · subst h5; rw [escapeCharL]; simp only [if_neg h1, if_neg h2, if_neg h3,
        if_neg h4, if_pos rfl, List.cons_append, List.nil_append]
      rw [readStr.eq_def]; simp [unescape, ih]
    by_cases h6 : c.toNat < 32
    · have hdiv : c.toNat / 16 < 16 := by omega
      have hmod : c.toNat % 16 < 16 := by omega
      rw [escapeCharL]
      simp only [if_neg h1, if_neg h2, if_neg h3, if_neg h4, if_neg h5,
        if_pos h6, List.cons_append, List.nil_append]
      rw [readStr.eq_def]
      simp only [hexVal_hexDigit _ hdiv, hexVal_hexDigit _ hmod]
      simp [hexVal, ih]
      have hv : c.toNat / 16 * 16 + c.toNat % 16 = c.toNat := by omega
      rw [hv, Char.ofNat_toNat]
    · rw [escapeCharL]
      simp only [if_neg h1, if_neg h2, if_neg h3, if_neg h4, if_neg h5,
        if_neg h6, List.cons_append, List.nil_append]
      rw [readStr.eq_def]
      simp [h1, h2, ih]

/-- Any two sufficient fuels give `natDigitsAux` the same value. -/
theorem natDigitsAux_congr (n : Nat) : ∀ f1 f2, n < f1 → n < f2 →
    natDigitsAux f1 n = natDigitsAux f2 n := by
  induction n using Nat.strong_induction_on with
  | _ n ih =>
    intro f1 f2 h1 h2
    match f1, f2, h1, h2 with
    | a + 1, b + 1, _, _ =>
      simp only [natDigitsAux]
      by_cases h10 : n < 10
      · simp [h10]
      · simp only [if_neg h10]
        congr 1
        exact ih (n / 10) (Nat.div_lt_self (by omega) (by omega)) a b
          (by omega) (by omega)

/-- The defining recurrence of `natDigits`. -/
theorem natDigits_unfold (n : Nat) :
    natDigits n = if n < 10 then [Char.ofNat (48 + n)]
      else natDigits (n / 10) ++ [Char.ofNat (48 + n % 10)] := by
  rw [natDigits, natDigitsAux]
  by_cases h10 : n < 10
  · simp [h10]
  · simp only [if_neg h10]
    congr 1
    rw [natDigits]
    exact natDigitsAux_congr (n / 10) n (n / 10 + 1) (by omega) (by omega)

/-- `natDigits` always starts with a decimal digit character. -/
theorem natDigits_shape (n : Nat) :
    ∃ d cs, natDigits n = Char.ofNat (48 + d) :: cs ∧ d < 10 := by
  induction n using Nat.strong_induction_on with
  | _ n ih =>
    by_cases h : n < 10
    · exact ⟨n, [], by rw [natDigits_unfold]; simp [h], h⟩
    · obtain ⟨d, cs, hd, hlt⟩ := ih (n / 10) (Nat.div_lt_self (by omega) (by omega))
      exact ⟨d, cs ++ [Char.ofNat (48 + n % 10)], by rw [natDigits_unfold]; simp [h, hd], hlt⟩

/-- Reading the digits of `n` folds them back into the accumulator. -/
theorem readNatAux_digits (n : Nat) : ∀ acc rest,
    readNatAux (natDigits n ++ rest) acc
      = readNatAux rest (acc * 10 ^ (natDigits n).length + n) := by
  induction n using Nat.strong_induction_on with
  | _ n ih =>
    intro acc rest
    by_cases h : n < 10
    · obtain ⟨hdig, htn, -, -⟩ := digitChar_facts n h
      rw [natDigits_unfold]
      simp only [if_pos h, List.singleton_append, List.length_singleton, pow_one]
      rw [readNatAux.eq_def]
      simp [hdig, htn]
    · have hlt : n / 10 < n := Nat.div_lt_self (by omega) (by omega)
      have hm : n % 10 < 10 := by omega
      obtain ⟨hdig, htn, -, -⟩ := digitChar_facts (n % 10) hm
      rw [natDigits_unfold]
      simp only [if_neg h, List.append_assoc, List.singleton_append,
        List.length_append, List.length_cons, List.length_nil]
      rw [ih (n / 10) hlt]
      rw [readNatAux.eq_def]
      simp only [hdig, if_pos, htn, Nat.add_sub_cancel_left, if_true]
      have harith : (acc * 10 ^ (natDigits (n / 10)).length + n / 10) * 10 + n % 10
          = acc * 10 ^ ((natDigits (n / 10)).length + (0 + 1)) + (10 * (n / 10) + n % 10) := by
        ring
      rw [harith, Nat.div_add_mod]


theorem mk_toList (s : String) : String.mk s.toList = s := rfl

theorem mk_data (s : String) : String.mk s.data = s := rfl

theorem readNatAux_stop (n : Nat) : ∀ rest, headNotDigit rest →
    readNatAux rest n = (n, rest) := by
  intro rest h
  cases rest with
  | nil => rw [readNatAux]
  | cons c l =>
    simp only [headNotDigit] at h
    rw [readNatAux]
    simp [h]

/-- Reading the rendering of an integer recovers the integer, provided no
further digit follows. -/
theorem readValue_int (n : Int) (rest : List Char) (hrest : headNotDigit rest) :
    readValue (intChars n ++ rest) = some (.int n, rest) := by
  by_cases hn : n < 0
  · obtain ⟨d, cs, hd, hlt⟩ := natDigits_shape n.natAbs
    obtain ⟨hdig, -, -, -⟩ := digitChar_facts d hlt
    have h1 : readNatAux (natDigits n.natAbs ++ rest) 0 = (n.natAbs, rest) := by
      rw [readNatAux_digits]
      simpa using readNatAux_stop n.natAbs rest hrest
    rw [hd] at h1
    simp only [List.cons_append] at h1
    rw [intChars]
    simp only [if_pos hn, List.cons_append, hd]
    rw [readValue.eq_def]
    simp [hdig, h1]
    simp [abs_of_neg hn]
  · obtain ⟨d, cs, hd, hlt⟩ := natDigits_shape n.toNat
    obtain ⟨hdig, -, hq, hm⟩ := digitChar_facts d hlt
    have h1 : readNatAux (natDigits n.toNat ++ rest) 0 = (n.toNat, rest) := by
      rw [readNatAux_digits]
      simpa using readNatAux_stop n.toNat rest hrest
    rw [hd] at h1
    simp only [List.cons_append] at h1
    rw [intChars]
    simp only [if_neg hn, hd, List.cons_append]
    rw [readValue.eq_def]
    simp [hq, hm, hdig, h1]
    omega

/-- Reading the rendering of a JSON string literal recovers the string. -/
theorem readValue_str (s : String) (rest : List Char) :
    readValue (strLit s.toList ++ rest) = some (.str s, rest) := by
  rw [strLit]
  simp only [List.cons_append, List.append_assoc, List.singleton_append]
  rw [readValue.eq_def]
  simp [readStr_escape, mk_toList]

/-- Reading any rendered JSON value recovers the value, provided no digit
follows. -/
theorem readValue_render (v : JValue) (rest : List Char) (hrest : headNotDigit rest) :
    readValue (v.render ++ rest) = some (v, rest) := by
  cases v with
  | str s => exact readValue_str s rest
  | int n => exact readValue_int n rest hrest

theorem rbrace_not_comma : rbrace ≠ ',' := by decide

theorem headNotDigit_rbrace (l : List Char) : headNotDigit (rbrace :: l) := by
  simp only [headNotDigit]
  decide

theorem headNotDigit_comma (l : List Char) : headNotDigit (',' :: l) := by
  simp only [headNotDigit]
  decide

/-- Reading the rendered members of a nonempty object recovers exactly the
members, leaving the input that follows the closing brace. -/
theorem readMembers_render (es : List (String × JValue)) :
    ∀ (fuel : Nat) (rest : List Char), es ≠ [] → es.length ≤ fuel →
    readMembers fuel (joinComma (es.map entryChars) ++ rbrace :: rest)
      = some (es, rest) := by
  induction es with
  | nil => intro fuel rest h; exact absurd rfl h
  | cons e es ih =>
    intro fuel rest hne hlen
    cases fuel with
    | zero => simp at hlen
    | succ f =>
      cases es with
      | nil =>
        simp only [List.map_cons, List.map_nil, joinComma]
        rw [entryChars, strLit]
        simp only [List.cons_append, List.append_assoc, List.singleton_append]
        rw [readMembers.eq_def]
        simp [readStr_escape, readValue_render e.2 _ (headNotDigit_rbrace rest),
          rbrace_not_comma, mk_toList, mk_data]
      | cons e2 es2 =>
        have hlen2 : (e2 :: es2).length ≤ f := by
          simp only [List.length_cons] at hlen ⊢; omega
        have ih2 := ih f rest (List.cons_ne_nil e2 es2) hlen2
        simp only [List.map_cons] at ih2
        simp only [List.map_cons, joinComma]
        rw [entryChars, strLit]
        simp only [List.cons_append, List.append_assoc, List.singleton_append]
        rw [readMembers.eq_def]
        simp [readStr_escape, readValue_render e.2 _ (headNotDigit_comma _),
          mk_toList, mk_data, ih2]

/-- The flat-object reader inverts the `Token` formatter: parsing the JSON
text produced for any `Token` returns exactly that token's members. -/
theorem parseObj_MessageToJson (t : Token) :
    parseObj (MessageToJson t) = some (tokenEntries t) := by
  rw [parseObj, MessageToJson]
  have htl : (String.mk (objChars (tokenEntries t))).toList = objChars (tokenEntries t) := rfl
  have hln : (String.mk (objChars (tokenEntries t))).length
      = (objChars (tokenEntries t)).length := rfl
  rw [htl, hln, objChars]
  have hm := readMembers_render (tokenEntries t)
      ((joinComma (List.map entryChars (tokenEntries t))).length + 1 + 1 + 4) []
      (by simp [tokenEntries])
      (by simp only [tokenEntries, List.length_cons, List.length_nil]; omega)
  simp [hm]

/-! ### Claims -/

/-- C1: running `main` with the fixed literal inputs (name='orð', index=1,
span_from=1, span_to=4) prints a JSON object that contains exactly those
four values, each under the key corresponding to its field (the formatter's
lowerCamelCase key), and contains no other entries. -/
theorem main_prints_exactly_four_fields :
    stdoutOf mainEvents = MessageToJson mainToken ++ "\n"
    ∧ parseObj (MessageToJson mainToken)
      = some [("name", JValue.str "orð"), ("index", JValue.int 1),
              ("spanFrom", JValue.int 1), ("spanTo", JValue.int 4)] := by
  refine ⟨rfl, ?_⟩
  rw [parseObj_MessageToJson]
  rfl

/-- C2: a run of the program with any (hence no) arguments writes exactly
one line to standard output, that line is a JSON object, and the exit
status is 0 on every execution. -/
theorem run_prints_one_json_line_exit_zero (args : List String) :
    run args = (MessageToJson mainToken ++ "\n", 0)
    ∧ '\n' ∉ (MessageToJson mainToken).toList
    ∧ parseObj (MessageToJson mainToken) = some (tokenEntries mainToken) :=
  ⟨rfl, by decide, parseObj_MessageToJson mainToken⟩

/-- C3 (counterexample): the JSON object printed for the token built by
`main` does not use the proto field names `span_from` and `span_to` as
keys: the formatter's key set is not `[name, index, span_from, span_to]`. -/
theorem main_output_keys_not_snake_case :
    ¬ (Option.map (List.map Prod.fst) (parseObj (MessageToJson mainToken))
        = some ["name", "index", "span_from", "span_to"]) := by
  decide

/-- C3 (amended): for every populated `Token`, the formatter produces a
JSON object whose keys are exactly the lowerCamelCase JSON names of the
Token's fields (`name`, `index`, `spanFrom`, `spanTo`) and whose values are
those fields' values, with strings quoted and escaped and integers
unquoted (witnessed by the reader decoding them back). -/
theorem formatter_keys_are_camel_case (t : Token) :
    parseObj (MessageToJson t)
      = some [("name", JValue.str t.name), ("index", JValue.int t.index),
              ("spanFrom", JValue.int t.span_from), ("spanTo", JValue.int t.span_to)] := by
  rw [parseObj_MessageToJson]
  rfl

/-- C4: the string printed by `main` is valid JSON: parsing it back yields
an object with the same four key-value pairs that were set on the token,
and decoding the JSON value under the text field's key yields a string
equal to the original Unicode text 'orð'. -/
theorem main_output_parses_back :
    parseObj (MessageToJson mainToken) = some (tokenEntries mainToken)
    ∧ (parseObj (MessageToJson mainToken)).bind (lookupKey "name")
        = some (JValue.str "orð")
    ∧ mainToken.name = "orð" :=
  ⟨parseObj_MessageToJson mainToken, by decide, rfl⟩

/-- C5: the program is deterministic: any two runs with identical (literal)
inputs produce byte-identical output. -/
theorem run_deterministic (args1 args2 : List String) :
    run args1 = run args2 := rfl

/-- C6: no failure path is reachable in `main`: with all inputs being
literals, construction, the four field assignments, serialization and
printing all succeed, so `main` never raises an error. -/
theorem main_has_no_failure_path :
    mainChecked = Except.ok mainEvents := rfl

/-- C7: the relation span_from ≤ span_to is never enforced or checked: for
every pair of integers (a, b), including a > b, assigning span_from = a and
span_to = b on any `Token` succeeds without error and stores exactly those
values, so the ordering is not an invariant the program guarantees. -/
theorem span_order_never_checked (a b : Int) (t : Token) :
    (t.setField FieldName.span_from (PyValue.pint a)).bind
        (fun u => u.setField FieldName.span_to (PyValue.pint b))
      = Except.ok { t with span_from := a, span_to := b } := rfl

/-- C8: the four field assignments in `main` do not interfere: after all
four assignments each field holds exactly the value assigned to it, so the
token passed to the formatter is name='orð', index=1, span_from=1,
span_to=4. -/
theorem assignments_do_not_interfere (t : Token) (n : String) (i a b : Int) :
    ((((t.setName n).setIndex i).setSpanFrom a).setSpanTo b).name = n
    ∧ ((((t.setName n).setIndex i).setSpanFrom a).setSpanTo b).index = i
    ∧ ((((t.setName n).setIndex i).setSpanFrom a).setSpanTo b).span_from = a
    ∧ ((((t.setName n).setIndex i).setSpanFrom a).setSpanTo b).span_to = b
    ∧ mainToken = { name := "orð", index := 1, span_from := 1, span_to := 4 } :=
  ⟨rfl, rfl, rfl, rfl, rfl⟩

/-- C9: the text written to standard output is exactly the string returned
by the formatter for the populated token followed by print's trailing
newline, and `main` performs exactly one print and no other I/O. -/
theorem main_single_print_only :
    mainEvents = [Event.printLine (MessageToJson mainToken)]
    ∧ stdoutOf mainEvents = MessageToJson mainToken ++ "\n" := ⟨rfl, rfl⟩

/-- C10: importing the module produces no output and does not invoke
`main`; the events occur only when the file runs as the top-level script,
because of the `__name__ == '__main__'` guard. -/
theorem import_has_no_effect (m : String) (h : m ≠ "__main__") :
    moduleTopLevel m = [] ∧ moduleTopLevel "__main__" = mainEvents := by
  refine ⟨?_, rfl⟩
  rw [moduleTopLevel]
  simp [h]

/-- Witness for C10 at the concrete module name `processed_pb2`. -/
theorem import_has_no_effect_witness :
    ("processed_pb2" : String) ≠ "__main__"
    ∧ (moduleTopLevel "processed_pb2" = []
        ∧ moduleTopLevel "__main__" = mainEvents) :=
  ⟨by decide, import_has_no_effect "processed_pb2" (by decide)⟩

end TtsFrontendProto
